import Mathlib

/-!
# Verification of the Customer Feature & Similarity/Clustering Engine

Shallow embedding of the analytic pipeline implemented in
`task2/Aditya_Bhutada_Lookalike.py` and `task3/clustering_script.py`,
together with proofs and refutations of the specified properties.

Modelling conventions:
* pandas/numpy floats are modelled as `Rat` (the claims under study only
  compare, sort and copy scores, so exact arithmetic is faithful);
* a pandas `DataFrame` column is a `List`; a numpy matrix is a
  `List (List Rat)`;
* `np.argsort` is modelled as a stable ascending sort of the indices
  (ties in the comparison are kept in ascending index order — NumPy's
  documented behaviour for its stable kind; the script does not request
  any particular tie order);
* fallible Python code (subscription that can raise `IndexError`, string
  joins that can raise `TypeError`) is modelled with `Except String`.
-/

namespace ZeoTap

/-! ## Source records (task2, lines 8–17)

`Transactions.csv` rows carry a customer reference, a product reference,
a quantity and a total value; `Products.csv` maps a product identifier to
a category.  Only the fields the engine reads are modelled. -/

structure Transaction where
  customerId : String
  productId : String
  quantity : Int
  totalValue : Rat
deriving DecidableEq, Repr

structure Product where
  productId : String
  category : String
deriving DecidableEq, Repr

/-- `transactions_df.merge(products_df, on='ProductID', how='left')`
(task2, line 17): every transaction row is kept; the `Category` column is
the category of the first product row with a matching identifier, and a
missing value (`NaN`) when no product matches.  (Per the data model the
product identifier is a unique key, so first-match is the join.) -/
def mergedRows (txns : List Transaction) (products : List Product) :
    List (Transaction × Option String) :=
  txns.map fun t =>
    (t, (products.find? fun p => p.productId == t.productId).map Product.category)

/-- Lexicographic (code-point) order on identifier strings, stated on
the underlying character lists. -/
def strLt (a b : String) : Prop :=
  List.Lex (· < ·) a.data b.data

instance : DecidableRel strLt := fun a b => by
  unfold strLt; infer_instance

/-- The non-strict companion of `strLt` (the order `np.unique` and
pandas `groupby` sort by). -/
def strLe (a b : String) : Prop :=
  ¬ List.Lex (· < ·) b.data a.data

instance : DecidableRel strLe := fun a b => by
  unfold strLe; infer_instance

instance : IsTotal String strLe where
  total a b := by
    unfold strLe
    have tri := (inferInstance : IsTrichotomous (List Char) (List.Lex (· < ·)))
    have asy := (inferInstance : IsAsymm (List Char) (List.Lex (· < ·)))
    rcases tri.trichotomous a.data b.data with h | h | h
    · exact Or.inl (asy.asymm _ _ h)
    · refine Or.inl fun hba => ?_
      rw [h] at hba
      exact asy.asymm _ _ hba hba
    · exact Or.inr (asy.asymm _ _ h)

instance : IsTrans String strLe where
  trans a b c hab hbc := by
    unfold strLe at *
    intro hca
    have tri := (inferInstance : IsTrichotomous (List Char) (List.Lex (· < ·)))
    have tr := (inferInstance : IsTrans (List Char) (List.Lex (· < ·)))
    rcases tri.trichotomous c.data b.data with h | h | h
    · exact hbc h
    · rw [h] at hca
      exact hab hca
    · exact hab (tr.trans _ _ _ h hca)

/-- The distinct customer identifiers of the merged table in ascending
order: pandas `groupby('CustomerID')` sorts the group keys. -/
def groupKeys (txns : List Transaction) : List String :=
  List.insertionSort strLe ((txns.map Transaction.customerId).dedup)

/-- Sum of the `Quantity` column over one customer's group of merged rows
(the `'Quantity': 'sum'` aggregation, task2 line 23). -/
def groupQuantity (rows : List (Transaction × Option String)) (c : String) : Int :=
  (((rows.filter fun r => r.1.customerId == c).map fun r => r.1.quantity)).sum

/-- Sum of the `TotalValue` column over one customer's group of merged
rows (the `'TotalValue': 'sum'` aggregation, task2 line 24). -/
def groupValue (rows : List (Transaction × Option String)) (c : String) : Rat :=
  (((rows.filter fun r => r.1.customerId == c).map fun r => r.1.totalValue)).sum

/-- `','.join(x)` over a group's `Category` values (task2 line 25).
When the group contains a missing value (an unresolved product
reference), Python's `str.join` raises `TypeError: expected str instance,
float found`; otherwise it returns the comma-joined string. -/
def joinCategories (cats : List (Option String)) : Except String String :=
  if cats.all Option.isSome then
    Except.ok (String.intercalate "," (cats.filterMap id))
  else
    Except.error "TypeError"

/-- The `Category` values of one customer's group, in row order. -/
def groupCats (rows : List (Transaction × Option String)) (c : String) :
    List (Option String) :=
  (rows.filter fun r => r.1.customerId == c).map Prod.snd

/-- One row of the aggregated `customer_profiles` frame. -/
structure Profile where
  customerId : String
  quantity : Int
  totalValue : Rat
  category : String
deriving DecidableEq, Repr

/-- Builds the profile row of one group key, failing when the category
join fails. -/
def profileOf (rows : List (Transaction × Option String)) (c : String) :
    Except String Profile :=
  match joinCategories (groupCats rows c) with
  | Except.error e => Except.error e
  | Except.ok cat =>
      Except.ok ⟨c, groupQuantity rows c, groupValue rows c, cat⟩

/-- Runs `profileOf` over every group key, aborting at the first failing
group (the exception propagates out of `DataFrame.agg`). -/
def profilesOf (rows : List (Transaction × Option String)) :
    List String → Except String (List Profile)
  | [] => Except.ok []
  | c :: cs =>
      match profileOf rows c with
      | Except.error e => Except.error e
      | Except.ok p =>
          match profilesOf rows cs with
          | Except.error e => Except.error e
          | Except.ok ps => Except.ok (p :: ps)

/-- `customer_profiles` (task2, lines 20–28): the merged table grouped by
customer identifier with summed quantity, summed value and comma-joined
categories.  The whole aggregation raises when any group's category join
raises. -/
def customer_profiles (txns : List Transaction) (products : List Product) :
    Except String (List Profile) :=
  profilesOf (mergedRows txns products) (groupKeys txns)

/-! ## Similarity engine (task2, lines 49–64)

`similarity_matrix` is a square numpy array indexed like the
`customer_profiles` frame; `get_top_lookalikes` reads one row of it
through a view, overwrites the diagonal entry of that row with `-1`
in place, and reports the reversed tail of the row's `argsort`. -/

/-- The index-comparison relation underlying `np.argsort xs` on the index
set of `xs`: ascending by value, ties in ascending index order. -/
def idxLe (xs : List Rat) (i j : Nat) : Prop :=
  xs.getD i 0 < xs.getD j 0 ∨ (xs.getD i 0 = xs.getD j 0 ∧ i ≤ j)

instance (xs : List Rat) : DecidableRel (idxLe xs) := fun i j => by
  unfold idxLe; infer_instance

instance (xs : List Rat) : IsTotal Nat (idxLe xs) where
  total i j := by
    unfold idxLe
    rcases lt_trichotomy (xs.getD i 0) (xs.getD j 0) with h | h | h
    · exact Or.inl (Or.inl h)
    · rcases Nat.le_total i j with hij | hij
      · exact Or.inl (Or.inr ⟨h, hij⟩)
      · exact Or.inr (Or.inr ⟨h.symm, hij⟩)
    · exact Or.inr (Or.inl h)

instance (xs : List Rat) : IsTrans Nat (idxLe xs) where
  trans i j k hij hjk := by
    unfold idxLe at *
    rcases hij with h₁ | ⟨e₁, l₁⟩
    · rcases hjk with h₂ | ⟨e₂, _⟩
      · exact Or.inl (h₁.trans h₂)
      · exact Or.inl (e₂ ▸ h₁)
    · rcases hjk with h₂ | ⟨e₂, l₂⟩
      · exact Or.inl (e₁ ▸ h₂)
      · exact Or.inr ⟨e₁.trans e₂, l₁.trans l₂⟩

/-- `np.argsort xs`: the indices `0, …, xs.length - 1` sorted ascending
by value, equal values kept in ascending index order. -/
def argsort (xs : List Rat) : List Nat :=
  List.insertionSort (idxLe xs) (List.range xs.length)

/-- Python's `l[-k:]` slice on a list: the whole list when `k = 0`
(because `-0 == 0`), otherwise the last `k` elements. -/
def pySliceLast (k : Nat) (xs : List α) : List α :=
  if k = 0 then xs else xs.drop (xs.length - k)

/-- The query row after `customer_similarities[customer_index] = -1`
(task2, line 56): entry `ci` of row `ci` overwritten with `-1`. -/
def maskedRow (sim : List (List Rat)) (ci : Nat) : List Rat :=
  (sim.getD ci []).set ci (-1)

/-- `np.argsort(customer_similarities)[-top_n:][::-1]` (task2, line 59). -/
def topIndices (row : List Rat) (top_n : Nat) : List Nat :=
  (pySliceLast top_n (argsort row)).reverse

/-- The `(CustomerID, score)` pairs read off at the selected indices
(task2, lines 60–63). -/
def mkPairs (ids : List String) (row : List Rat) (top_n : Nat) :
    List (String × Rat) :=
  (topIndices row top_n).map fun i => (ids.getD i "", row.getD i 0)

/-- `get_top_lookalikes` (task2, lines 52–64).  `ids` is the `CustomerID`
column of `customer_profiles`, `sim` the similarity matrix.  The first
index whose identifier matches is looked up (`.tolist()[0]` raises
`IndexError` on no match); the row's diagonal entry is overwritten with
`-1` **through a numpy view**, so the function also returns the mutated
matrix. -/
def get_top_lookalikes (customer_id : String) (sim : List (List Rat))
    (ids : List String) (top_n : Nat := 3) :
    Except String (List (String × Rat) × List (List Rat)) :=
  match ids.findIdx? (· == customer_id) with
  | none => Except.error "IndexError"
  | some ci =>
      Except.ok (mkPairs ids (maskedRow sim ci) top_n,
                 sim.set ci (maskedRow sim ci))

/-- The loop over the query customers (task2, lines 70–72): the mutated
similarity matrix is threaded through the successive calls; an
`IndexError` aborts the script. -/
def runQueries (queries : List String) (sim : List (List Rat))
    (ids : List String) (top_n : Nat) :
    Except String (List (String × List (String × Rat)) × List (List Rat)) :=
  match queries with
  | [] => Except.ok ([], sim)
  | q :: rest =>
      match get_top_lookalikes q sim ids top_n with
      | Except.error e => Except.error e
      | Except.ok (pairs, sim') =>
          match runQueries rest sim' ids top_n with
          | Except.error e => Except.error e
          | Except.ok (out, simF) => Except.ok ((q, pairs) :: out, simF)

/-! ## Feature encoder (task2, lines 34–46)

`OneHotEncoder` fitted on a categorical column: the vocabulary is the
sorted list of distinct column values (numpy `unique`), and each cell is
encoded as the indicator vector of its value.  The script feeds it the
`Region` column and the comma-joined `Category` column of
`customer_profiles`, so each *joined string* is one categorical value. -/

/-- The fitted vocabulary of one categorical column: its distinct values
in ascending order. -/
def vocabOf (vals : List String) : List String :=
  List.insertionSort strLe vals.dedup

/-- The one-hot encoding of one cell value against a vocabulary:
`1.0` at the dimensions holding that exact value, `0.0` elsewhere. -/
def oneHot (vocab : List String) (v : String) : List Rat :=
  vocab.map fun u => if u = v then 1 else 0

/-- Fit-and-transform of one categorical column (the `'cat'` transformer
of the `ColumnTransformer`, task2 lines 38–46, restricted to one
column). -/
def encodeColumn (vals : List String) : List (List Rat) :=
  vals.map (oneHot (vocabOf vals))

/-- The multiset of categories one customer actually purchased (the
resolved `Category` values of their merged rows, in row order). -/
def bagOf (rows : List (Transaction × Option String)) (c : String) :
    List String :=
  (groupCats rows c).filterMap id

/-- The encoding the spec's words describe (one indicator dimension per
distinct *category*, presence/absence of membership), stated for
comparison with `encodeColumn`. -/
def specCatVocab (bags : List (List String)) : List String :=
  List.insertionSort strLe (bags.flatten).dedup

/-- Spec-worded indicator vector of one customer's category bag. -/
def specCatVector (vocab : List String) (bag : List String) : List Rat :=
  vocab.map fun u => if u ∈ bag then 1 else 0

/-! ## Clustering engine (task3, lines 31–32)

The script calls `KMeans(n_clusters=4, random_state=42).fit_predict` on
the scaled profile features.  The cluster count is the hard-coded
constant `4`. -/

/-- `n_clusters=4` (task3, line 31). -/
def n_clusters : Nat := 4

/-- Models the input validation the external `KMeans.fit_predict`
performs before any distance computation, per its documented contract:
`n_clusters` must be at least 1 (an `InvalidParameterError` otherwise),
and fitting raises `ValueError` when `n_samples < n_clusters`.  No other
bound on the cluster count is checked; in particular `K = 1` and
`K = n_samples` are accepted. -/
def kmeans_validate (K n_samples : Nat) : Except String Unit :=
  if K < 1 then Except.error "InvalidParameterError"
  else if n_samples < K then Except.error "ValueError"
  else Except.ok ()

/-- Squared Euclidean distance of two feature vectors (the comparisons
below only rank distances, so the square root is dropped). -/
def sqDist (a b : List Rat) : Rat :=
  ((a.zip b).map fun p => (p.1 - p.2) * (p.1 - p.2)).sum

/-- Index of the nearest centroid, ties broken by lowest cluster index. -/
def nearest (cents : List (List Rat)) (p : List Rat) : Nat :=
  (List.range cents.length).foldl
    (fun best k =>
      if sqDist p (cents.getD k []) < sqDist p (cents.getD best []) then k
      else best)
    0

/-- One assignment pass: each point gets the index of its nearest
centroid. -/
def assign (points cents : List (List Rat)) : List Nat :=
  points.map (nearest cents)

/-- Whether some cluster index below `K` has no assigned point. -/
def hasEmpty (labels : List Nat) (K : Nat) : Bool :=
  (List.range K).any fun k => labels.count k == 0

/-- Componentwise vector sum. -/
def vecAdd (a b : List Rat) : List Rat :=
  (a.zip b).map fun p => p.1 + p.2

/-- Mean of the points assigned to cluster `k` (only used on nonempty
clusters). -/
def centroidOf (points : List (List Rat)) (labels : List Nat) (k : Nat) :
    List Rat :=
  let members := ((points.zip labels).filter fun pl => pl.2 == k).map Prod.fst
  match members with
  | [] => []
  | m :: ms => (ms.foldl vecAdd m).map fun x => x / ((ms.length + 1 : Nat) : Rat)

/-- The point farthest from its current nearest centroid (the re-seed
donor of the empty-cluster policy). -/
def farthestPoint (points cents : List (List Rat)) : List Rat :=
  points.foldl
    (fun best p =>
      if sqDist best (cents.getD (nearest cents best) []) <
          sqDist p (cents.getD (nearest cents p) []) then p
      else best)
    (points.headD [])

/-- Re-seed every empty cluster's centroid from the farthest point. -/
def reseedEmpties (points cents : List (List Rat)) (labels : List Nat) :
    List (List Rat) :=
  (List.range cents.length).foldl
    (fun cs k =>
      if labels.count k == 0 then cs.set k (farthestPoint points cs) else cs)
    cents

/-- Modelled from the spec: the iterative centroid refinement (Lloyd's
algorithm) that runs inside the external `KMeans.fit_predict` call of
task3 line 32 — the repository source only invokes it, so the loop is
taken from spec §4.4: assign each point to its nearest centroid (ties to
the lowest index), re-seed any empty cluster from the farthest point,
declare convergence when an assignment pass needs no re-seeding and
repeats the previous labels, and give up (`none`) when the iteration
bound runs out. -/
def lloyd (points : List (List Rat)) :
    Nat → List (List Rat) → Option (List Nat) → Option (List Nat)
  | 0, _, _ => none
  | fuel + 1, cents, prev =>
      let labels := assign points cents
      if hasEmpty labels cents.length then
        lloyd points fuel (reseedEmpties points cents labels) prev
      else if prev = some labels then some labels
      else
        lloyd points fuel
          ((List.range cents.length).map fun k => centroidOf points labels k)
          (some labels)

/-! ## Supporting lemmas -/

theorem argsort_perm (xs : List Rat) :
    List.Perm (argsort xs) (List.range xs.length) :=
  List.perm_insertionSort _ _

theorem argsort_sorted (xs : List Rat) : List.Sorted (idxLe xs) (argsort xs) :=
  List.sorted_insertionSort _ _

theorem argsort_nodup (xs : List Rat) : (argsort xs).Nodup :=
  (argsort_perm xs).nodup_iff.mpr (List.nodup_range _)

theorem argsort_length (xs : List Rat) : (argsort xs).length = xs.length := by
  rw [(argsort_perm xs).length_eq, List.length_range]

theorem mem_argsort {xs : List Rat} {i : Nat} : i ∈ argsort xs ↔ i < xs.length := by
  rw [(argsort_perm xs).mem_iff, List.mem_range]

theorem getD_set_self {α : Type _} {l : List α} {i : Nat} {a d : α}
    (h : i < l.length) : (l.set i a).getD i d = a := by
  rw [List.getD_eq_getElem _ _ (by simpa using h)]
  exact List.getElem_set_self (by simpa using h)

theorem getD_set_ne {α : Type _} {l : List α} {i j : Nat} {a d : α}
    (h : i ≠ j) : (l.set i a).getD j d = l.getD j d := by
  by_cases hj : j < l.length
  · rw [List.getD_eq_getElem _ _ (by simpa using hj), List.getD_eq_getElem _ _ hj]
    exact List.getElem_set_ne h _
  · rw [List.getD_eq_default _ _ (by simpa using Nat.le_of_not_lt hj),
      List.getD_eq_default _ _ (Nat.le_of_not_lt hj)]

theorem set_getD_self {α : Type _} :
    ∀ (l : List α) (i : Nat) (d : α), l.set i (l.getD i d) = l
  | [], _, _ => rfl
  | _ :: _, 0, _ => rfl
  | a :: l, i + 1, d => by
      simpa using set_getD_self l i d

theorem findIdx_lt {ids : List String} {cid : String} {ci : Nat}
    (h : ids.findIdx? (· == cid) = some ci) : ci < ids.length := by
  rw [List.findIdx?_eq_some_iff_getElem] at h
  exact h.1

theorem findIdx_getD {ids : List String} {cid : String} {ci : Nat}
    (h : ids.findIdx? (· == cid) = some ci) : ids.getD ci "" = cid := by
  rw [List.findIdx?_eq_some_iff_getElem] at h
  obtain ⟨hlt, hbeq, -⟩ := h
  rw [List.getD_eq_getElem _ _ hlt]
  exact eq_of_beq hbeq

theorem get_top_eq_ok {customer_id : String} {sim : List (List Rat)}
    {ids : List String} {top_n ci : Nat}
    (hfind : ids.findIdx? (· == customer_id) = some ci) :
    get_top_lookalikes customer_id sim ids top_n =
      Except.ok (mkPairs ids (maskedRow sim ci) top_n,
                 sim.set ci (maskedRow sim ci)) := by
  unfold get_top_lookalikes
  rw [hfind]

theorem maskedRow_length {sim : List (List Rat)} {ids : List String} {ci : Nat}
    (hlen : sim.length = ids.length) (hsq : ∀ r ∈ sim, r.length = ids.length)
    (hci : ci < ids.length) : (maskedRow sim ci).length = ids.length := by
  unfold maskedRow
  rw [List.length_set, List.getD_eq_getElem _ _ (hlen ▸ hci)]
  exact hsq _ (List.getElem_mem _)

theorem pySliceLast_sublist {α : Type _} (k : Nat) (xs : List α) :
    List.Sublist (pySliceLast k xs) xs := by
  unfold pySliceLast
  split
  · exact List.Sublist.refl _
  · exact List.drop_sublist _ _

theorem topIndices_mem {row : List Rat} {top_n i : Nat}
    (h : i ∈ topIndices row top_n) : i < row.length := by
  unfold topIndices at h
  rw [List.mem_reverse] at h
  exact mem_argsort.mp ((pySliceLast_sublist _ _).subset h)

theorem topIndices_pairwise (row : List Rat) (top_n : Nat) :
    List.Pairwise (fun i j => idxLe row j i ∧ j ≠ i) (topIndices row top_n) := by
  unfold topIndices
  rw [List.pairwise_reverse]
  exact ((argsort_sorted row).and (argsort_nodup row)).sublist
    (pySliceLast_sublist _ _)

/-! ## The claims about the similarity ranking -/

/-- **C1**, amended.  The pairs returned by `get_top_lookalikes` are
sorted by similarity score in descending order; but when two candidates
have equal scores, the candidate with the lexicographically **larger**
identifier appears first (the reversal of the ascending stable argsort
puts the larger profile-row index first, and the profile table is sorted
ascending by identifier) — not the smaller one as claimed. -/
theorem lookalikes_sorted_desc (customer_id : String) (sim : List (List Rat))
    (ids : List String) (top_n ci : Nat) (pairs : List (String × Rat))
    (m' : List (List Rat))
    (hfind : ids.findIdx? (· == customer_id) = some ci)
    (hsorted : List.Sorted strLt ids)
    (hlen : sim.length = ids.length)
    (hsq : ∀ r ∈ sim, r.length = ids.length)
    (h : get_top_lookalikes customer_id sim ids top_n = Except.ok (pairs, m')) :
    List.Pairwise (fun a b : String × Rat => b.2 < a.2 ∨ (a.2 = b.2 ∧ strLt b.1 a.1))
      pairs := by
  rw [get_top_eq_ok hfind, Except.ok.injEq, Prod.mk.injEq] at h
  obtain ⟨hp, -⟩ := h
  subst hp
  have hci : ci < ids.length := findIdx_lt hfind
  have hrowlen : (maskedRow sim ci).length = ids.length :=
    maskedRow_length hlen hsq hci
  unfold mkPairs
  rw [List.pairwise_map]
  refine (topIndices_pairwise (maskedRow sim ci) top_n).imp_of_mem ?_
  intro i j hi hj hij
  obtain ⟨hle, hne⟩ := hij
  rcases hle with hlt | ⟨heq, hle'⟩
  · exact Or.inl hlt
  · refine Or.inr ⟨heq.symm, ?_⟩
    have hj' : j < ids.length := hrowlen ▸ topIndices_mem hj
    have hi' : i < ids.length := hrowlen ▸ topIndices_mem hi
    have hji : j < i := lt_of_le_of_ne hle' hne
    rw [List.getD_eq_getElem _ _ hj', List.getD_eq_getElem _ _ hi']
    exact hsorted.rel_get_of_lt (Fin.mk_lt_mk.mpr hji)

/-- **C1**, counterexample.  With profiles `A, B, C, D` (in ascending
identifier order) and candidates `B` and `C` tied at score 5, the script
reports `C` before `B`, violating the claimed ascending-identifier tie
break. -/
theorem lookalikes_tie_order_cex :
    get_top_lookalikes "A" [[1, 5, 5, 9], [5, 1, 0, 0], [5, 0, 1, 0], [9, 0, 0, 1]]
        ["A", "B", "C", "D"] 3 =
      Except.ok ([("D", 9), ("C", 5), ("B", 5)],
                 [[-1, 5, 5, 9], [5, 1, 0, 0], [5, 0, 1, 0], [9, 0, 0, 1]]) ∧
    ¬ List.Pairwise (fun a b : String × Rat => b.2 < a.2 ∨ (a.2 = b.2 ∧ strLt a.1 b.1))
        [("D", 9), ("C", 5), ("B", 5)] := by
  constructor
  · with_unfolding_all rfl
  · decide

/-- Witness for `lookalikes_sorted_desc` at a concrete input. -/
theorem lookalikes_sorted_desc_witness :
    (["A", "B", "C", "D"].findIdx? (· == "A") = some 0) ∧
    List.Sorted strLt ["A", "B", "C", "D"] ∧
    List.Pairwise (fun a b : String × Rat => b.2 < a.2 ∨ (a.2 = b.2 ∧ strLt b.1 a.1))
      [("D", 9), ("C", 5), ("B", 5)] :=
  ⟨by decide, by decide,
    lookalikes_sorted_desc "A"
      [[1, 5, 5, 9], [5, 1, 0, 0], [5, 0, 1, 0], [9, 0, 0, 1]]
      ["A", "B", "C", "D"] 3 0 [("D", 9), ("C", 5), ("B", 5)]
      [[-1, 5, 5, 9], [5, 1, 0, 0], [5, 0, 1, 0], [9, 0, 0, 1]]
      (by decide) (by decide) (by decide) (by decide)
      (by with_unfolding_all rfl)⟩

theorem maskedRow_getD_self {sim : List (List Rat)} {ids : List String} {ci : Nat}
    (hlen : sim.length = ids.length) (hsq : ∀ r ∈ sim, r.length = ids.length)
    (hci : ci < ids.length) : (maskedRow sim ci).getD ci 0 = -1 := by
  have hl : (sim.getD ci []).length = ids.length := by
    rw [List.getD_eq_getElem _ _ (hlen ▸ hci)]
    exact hsq _ (List.getElem_mem _)
  exact getD_set_self (hl ▸ hci)

/-- **C2**, amended.  The query customer's identifier is absent from its
own lookalike list **provided** at least `top_n` entries of the
self-masked similarity row exceed the `-1` sentinel — in particular
whenever more than `top_n` customers exist and no candidate scores
exactly `-1`.  (When the whole dataset has at most `top_n` customers the
guarantee fails; see the counterexample.) -/
theorem self_excluded_from_lookalikes (customer_id : String)
    (sim : List (List Rat)) (ids : List String) (top_n ci : Nat)
    (pairs : List (String × Rat)) (m' : List (List Rat))
    (hfind : ids.findIdx? (· == customer_id) = some ci)
    (hnodup : ids.Nodup)
    (hlen : sim.length = ids.length)
    (hsq : ∀ r ∈ sim, r.length = ids.length)
    (htop : 1 ≤ top_n)
    (hcount : top_n ≤ ((List.range ids.length).filter
        fun j => decide (-1 < (maskedRow sim ci).getD j 0)).length)
    (h : get_top_lookalikes customer_id sim ids top_n = Except.ok (pairs, m')) :
    customer_id ∉ pairs.map Prod.fst := by
  rw [get_top_eq_ok hfind, Except.ok.injEq, Prod.mk.injEq] at h
  obtain ⟨hp, -⟩ := h
  subst hp
  have hci : ci < ids.length := findIdx_lt hfind
  have hrowlen : (maskedRow sim ci).length = ids.length :=
    maskedRow_length hlen hsq hci
  have hdiag : (maskedRow sim ci).getD ci 0 = -1 :=
    maskedRow_getD_self hlen hsq hci
  set row := maskedRow sim ci with hrow
  -- The self index is never among the selected indices.
  have hci_not : ci ∉ topIndices row top_n := by
    intro hmem
    have hciS : ci ∈ argsort row := mem_argsort.mpr (hrowlen ▸ hci)
    obtain ⟨A, B, hAB⟩ := List.append_of_mem hciS
    have hnodupS := argsort_nodup row
    rw [hAB, List.nodup_append] at hnodupS
    obtain ⟨-, hnodupB, hdisj⟩ := hnodupS
    have hciA : ci ∉ A := fun hA => hdisj hA (List.mem_cons_self _ _)
    have hciB : ci ∉ B := (List.nodup_cons.mp hnodupB).1
    -- every candidate scoring above -1 sits after the self index
    have hGB : ∀ j ∈ (List.range ids.length).filter
        (fun j => decide (-1 < row.getD j 0)), j ∈ B := by
      intro j hj
      rw [List.mem_filter, List.mem_range] at hj
      obtain ⟨hjn, hjpos⟩ := hj
      have hjpos' : (-1 : Rat) < row.getD j 0 := of_decide_eq_true hjpos
      have hjS : j ∈ argsort row := mem_argsort.mpr (hrowlen ▸ hjn)
      rw [hAB, List.mem_append, List.mem_cons] at hjS
      rcases hjS with hjA | hj_eq | hjB
      · have hsorted := argsort_sorted row
        rw [hAB] at hsorted
        have hsorted' : List.Pairwise (idxLe row) (A ++ ci :: B) := hsorted
        rw [List.pairwise_append] at hsorted'
        have hle : idxLe row j ci := hsorted'.2.2 j hjA ci (List.mem_cons_self _ _)
        rcases hle with hlt | ⟨heq, -⟩
        · rw [hdiag] at hlt
          exact absurd (hjpos'.trans hlt) (lt_irrefl _)
        · rw [hdiag] at heq
          rw [heq] at hjpos'
          exact absurd hjpos' (lt_irrefl _)
      · subst hj_eq
        rw [hdiag] at hjpos'
        exact absurd hjpos' (lt_irrefl _)
      · exact hjB
    have hGnodup : ((List.range ids.length).filter
        (fun j => decide (-1 < row.getD j 0))).Nodup :=
      (List.nodup_range _).filter _
    have hBlen : top_n ≤ B.length :=
      le_trans hcount (List.subperm_of_subset hGnodup hGB).length_le
    have hlenS : (argsort row).length = ids.length := by
      rw [argsort_length, hrowlen]
    have hlenAB : A.length + 1 + B.length = ids.length := by
      have hc := congrArg List.length hAB
      rw [List.length_append, List.length_cons, hlenS] at hc
      omega
    unfold topIndices at hmem
    rw [List.mem_reverse] at hmem
    unfold pySliceLast at hmem
    rw [if_neg (by omega : ¬ top_n = 0), hAB,
      List.drop_append_eq_append_drop, List.mem_append] at hmem
    rcases hmem with h1 | h2
    · exact hciA (List.drop_subset _ _ h1)
    · have hk : (A ++ ci :: B).length - top_n - A.length =
          ((A ++ ci :: B).length - top_n - A.length - 1) + 1 := by
        rw [List.length_append, List.length_cons]
        omega
      rw [hk, List.drop_succ_cons] at h2
      exact hciB (List.drop_subset _ _ h2)
  -- any selected index bearing the query identifier would be the self index
  intro hmem
  rw [List.mem_map] at hmem
  obtain ⟨p, hp_mem, hp_eq⟩ := hmem
  unfold mkPairs at hp_mem
  rw [List.mem_map] at hp_mem
  obtain ⟨i, hi_mem, hi_eq⟩ := hp_mem
  have hi_lt : i < ids.length := hrowlen ▸ topIndices_mem hi_mem
  have hidi : ids.getD i "" = customer_id := by
    rw [← hi_eq] at hp_eq
    exact hp_eq
  have hidci : ids.getD ci "" = customer_id := findIdx_getD hfind
  have : i = ci := by
    rw [List.getD_eq_getElem _ _ hi_lt] at hidi
    rw [List.getD_eq_getElem _ _ hci] at hidci
    exact (hnodup.getElem_inj_iff).mp (hidi.trans hidci.symm)
  rw [this] at hi_mem
  exact hci_not hi_mem

/-- **C2**, counterexample.  With only two customers and the default
`top_n = 3`, the `[-top_n:]` slice returns the whole row, so the query
customer `X` appears in its own lookalike list (with the sentinel score
`-1`). -/
theorem self_excluded_cex :
    get_top_lookalikes "X" [[1, 0], [0, 1]] ["X", "Y"] 3 =
      Except.ok ([("Y", 0), ("X", -1)], [[-1, 0], [0, 1]]) ∧
    "X" ∈ ([("Y", (0 : Rat)), ("X", -1)].map Prod.fst) := by
  constructor
  · with_unfolding_all rfl
  · decide

/-- Witness for `self_excluded_from_lookalikes` at a concrete input. -/
theorem self_excluded_witness :
    (["A", "B", "C", "D"].findIdx? (· == "A") = some 0) ∧
    (["A", "B", "C", "D"] : List String).Nodup ∧
    (3 ≤ ((List.range 4).filter fun j => decide
      ((-1 : Rat) < (maskedRow [[1, 5, 5, 9], [5, 1, 0, 0], [5, 0, 1, 0], [9, 0, 0, 1]] 0).getD j 0)).length) ∧
    "A" ∉ ([("D", (9 : Rat)), ("C", 5), ("B", 5)].map Prod.fst) :=
  ⟨by decide, by decide, by decide,
    self_excluded_from_lookalikes "A"
      [[1, 5, 5, 9], [5, 1, 0, 0], [5, 0, 1, 0], [9, 0, 0, 1]]
      ["A", "B", "C", "D"] 3 0 [("D", 9), ("C", 5), ("B", 5)]
      [[-1, 5, 5, 9], [5, 1, 0, 0], [5, 0, 1, 0], [9, 0, 0, 1]]
      (by decide) (by decide) (by decide) (by decide) (by decide) (by decide)
      (by with_unfolding_all rfl)⟩

/-- **C6**, amended.  For `top_n ≥ 1` the lookalike list has exactly
`min top_n M` entries, where `M` is the **total** number of customers:
exactly `top_n` pairs whenever at least `top_n` *other* customers exist,
but `M` pairs — including the query customer itself, carrying the `-1`
sentinel — when fewer than `top_n` others exist (not "all available
other customers" as claimed). -/
theorem lookalikes_count (customer_id : String) (sim : List (List Rat))
    (ids : List String) (top_n ci : Nat) (pairs : List (String × Rat))
    (m' : List (List Rat))
    (hfind : ids.findIdx? (· == customer_id) = some ci)
    (hlen : sim.length = ids.length)
    (hsq : ∀ r ∈ sim, r.length = ids.length)
    (htop : 1 ≤ top_n)
    (h : get_top_lookalikes customer_id sim ids top_n = Except.ok (pairs, m')) :
    pairs.length = min top_n ids.length := by
  rw [get_top_eq_ok hfind, Except.ok.injEq, Prod.mk.injEq] at h
  obtain ⟨hp, -⟩ := h
  subst hp
  have hci : ci < ids.length := findIdx_lt hfind
  have hrowlen : (maskedRow sim ci).length = ids.length :=
    maskedRow_length hlen hsq hci
  unfold mkPairs topIndices pySliceLast
  rw [List.length_map, List.length_reverse, if_neg (by omega : ¬ top_n = 0),
    List.length_drop, argsort_length, hrowlen]
  omega

/-- **C6**, counterexample.  With two customers (one *other* customer)
and `top_n = 3`, the claim demands that the single other customer `B` be
returned alone; instead the script returns two pairs, the second one
being the query customer itself. -/
theorem lookalikes_count_cex :
    get_top_lookalikes "A" [[1, 0], [0, 1]] ["A", "B"] 3 =
      Except.ok ([("B", 0), ("A", -1)], [[-1, 0], [0, 1]]) ∧
    ¬ ([("B", (0 : Rat)), ("A", -1)].map Prod.fst = ["B"]) := by
  constructor
  · with_unfolding_all rfl
  · decide

/-- Witness for `lookalikes_count` at a concrete input. -/
theorem lookalikes_count_witness :
    (["A", "B", "C", "D"].findIdx? (· == "A") = some 0) ∧
    ([("D", (9 : Rat)), ("C", 5), ("B", 5)].length = min 3 4) :=
  ⟨by decide,
    lookalikes_count "A"
      [[1, 5, 5, 9], [5, 1, 0, 0], [5, 0, 1, 0], [9, 0, 0, 1]]
      ["A", "B", "C", "D"] 3 0 [("D", 9), ("C", 5), ("B", 5)]
      [[-1, 5, 5, 9], [5, 1, 0, 0], [5, 0, 1, 0], [9, 0, 0, 1]]
      (by decide) (by decide) (by decide) (by decide)
      (by with_unfolding_all rfl)⟩

/-- **C9**, amended.  `get_top_lookalikes` writes `-1` into the
similarity matrix through a numpy view: the returned matrix has `-1` at
the query's diagonal entry, and every entry other than `(ci, ci)` is
unchanged.  So the extraction step *does* mutate the Similarity Engine's
output in place — but only at that one diagonal cell. -/
theorem lookalike_mutates_only_diagonal (customer_id : String)
    (sim : List (List Rat)) (ids : List String) (top_n ci : Nat)
    (pairs : List (String × Rat)) (m' : List (List Rat))
    (hfind : ids.findIdx? (· == customer_id) = some ci)
    (hlen : sim.length = ids.length)
    (hsq : ∀ r ∈ sim, r.length = ids.length)
    (h : get_top_lookalikes customer_id sim ids top_n = Except.ok (pairs, m')) :
    m'.length = sim.length ∧
    (m'.getD ci []).getD ci 0 = -1 ∧
    ∀ i j : Nat, ¬(i = ci ∧ j = ci) →
      (m'.getD i []).getD j 0 = (sim.getD i []).getD j 0 := by
  rw [get_top_eq_ok hfind, Except.ok.injEq, Prod.mk.injEq] at h
  obtain ⟨-, hm⟩ := h
  subst hm
  have hci : ci < ids.length := findIdx_lt hfind
  have hci' : ci < sim.length := hlen ▸ hci
  have hrowci : ((sim.set ci (maskedRow sim ci)).getD ci []) = maskedRow sim ci :=
    getD_set_self hci'
  refine ⟨List.length_set _ _ _, ?_, ?_⟩
  · rw [hrowci]
    exact maskedRow_getD_self hlen hsq hci
  · intro i j hij
    by_cases hi : i = ci
    · have hj : j ≠ ci := fun hjeq => hij ⟨hi, hjeq⟩
      rw [hi, hrowci]
      exact getD_set_ne fun hc => hj hc.symm
    · rw [getD_set_ne fun hc => hi hc.symm]

/-- **C9**, counterexample.  Extracting the lookalikes of the first
customer changes the similarity matrix: its `(0, 0)` entry becomes `-1`,
so the matrix handed back differs from the one handed in. -/
theorem lookalike_mutates_matrix_cex :
    get_top_lookalikes "P" [[1, 0], [0, 1]] ["P", "Q"] 3 =
      Except.ok ([("Q", 0), ("P", -1)], [[-1, 0], [0, 1]]) ∧
    ([[(-1 : Rat), 0], [0, 1]] ≠ [[(1 : Rat), 0], [0, 1]]) := by
  constructor
  · with_unfolding_all rfl
  · decide

/-- Witness for `lookalike_mutates_only_diagonal` at a concrete input. -/
theorem lookalike_mutates_only_diagonal_witness :
    (["P", "Q"].findIdx? (· == "P") = some 0) ∧
    ([[(-1 : Rat), 0], [0, 1]].length = [[(1 : Rat), 0], [0, 1]].length ∧
     (([[(-1 : Rat), 0], [0, 1]].getD 0 []).getD 0 0 = -1) ∧
     ∀ i j : Nat, ¬(i = 0 ∧ j = 0) →
       (([[(-1 : Rat), 0], [0, 1]].getD i []).getD j 0 =
        ([[(1 : Rat), 0], [0, 1]].getD i []).getD j 0)) :=
  ⟨by decide,
    lookalike_mutates_only_diagonal "P" [[1, 0], [0, 1]] ["P", "Q"] 3 0
      [("Q", 0), ("P", -1)] [[-1, 0], [0, 1]]
      (by decide) (by decide) (by decide)
      (by with_unfolding_all rfl)⟩

/-- **C10**, confirmed.  A query customer present in the `Customers`
table but absent from every transaction has no `customer_profiles` row;
`customer_profiles.index[...].tolist()[0]` then subscripts an empty
list, raising an uncaught `IndexError`. -/
theorem lookalike_missing_profile_raises (customer_id : String)
    (customers : List String) (txns : List Transaction)
    (sim : List (List Rat)) (top_n : Nat)
    (_hmem : customer_id ∈ customers)
    (hnotx : ∀ t ∈ txns, t.customerId ≠ customer_id) :
    get_top_lookalikes customer_id sim (groupKeys txns) top_n =
      Except.error "IndexError" := by
  have hnone : (groupKeys txns).findIdx? (· == customer_id) = none := by
    rw [List.findIdx?_eq_none_iff]
    intro x hx
    unfold groupKeys at hx
    rw [List.mem_insertionSort, List.mem_dedup, List.mem_map] at hx
    obtain ⟨t, ht, rfl⟩ := hx
    exact beq_eq_false_iff_ne.mpr (hnotx t ht)
  unfold get_top_lookalikes
  rw [hnone]

/-- Witness for `lookalike_missing_profile_raises` at a concrete input. -/
theorem lookalike_missing_profile_raises_witness :
    ("C0099" ∈ ["C0099", "C1"]) ∧
    (∀ t ∈ [(⟨"C1", "P1", 1, 1⟩ : Transaction)], t.customerId ≠ "C0099") ∧
    get_top_lookalikes "C0099" [[1]] (groupKeys [⟨"C1", "P1", 1, 1⟩]) 3 =
      Except.error "IndexError" :=
  ⟨by decide, by decide,
    lookalike_missing_profile_raises "C0099" ["C0099", "C1"]
      [⟨"C1", "P1", 1, 1⟩] [[1]] 3 (by decide) (by decide)⟩

/-! ## Two-run determinism of the query loop (C7)

The only mutable state the pipeline threads between stages is the
similarity matrix, which the query loop mutates in place.  The crucial
invariant: every write is the idempotent masking of one diagonal entry,
so replaying the whole loop on the state the first run left behind
reproduces the first run's output exactly. -/

/-- Two matrices that agree row-by-row once each row's diagonal entry is
masked: the equivalence the in-place `-1` writes preserve. -/
def maskedAgrees (m m' : List (List Rat)) : Prop :=
  ∀ i : Nat, maskedRow m i = maskedRow m' i

/-- Row `i` already carries the `-1` mask at its diagonal position. -/
def rowMasked (m : List (List Rat)) (i : Nat) : Prop :=
  maskedRow m i = m.getD i []

theorem get_top_eq_err {customer_id : String} {sim : List (List Rat)}
    {ids : List String} {top_n : Nat}
    (hfind : ids.findIdx? (· == customer_id) = none) :
    get_top_lookalikes customer_id sim ids top_n = Except.error "IndexError" := by
  unfold get_top_lookalikes
  rw [hfind]

theorem maskedRow_set_self (m : List (List Rat)) (ci : Nat) :
    ∀ i, maskedRow (m.set ci (maskedRow m ci)) i = maskedRow m i := by
  intro i
  by_cases hci : ci < m.length
  · by_cases hic : i = ci
    · subst hic
      unfold maskedRow
      rw [getD_set_self hci, List.set_set]
  -- mutated row re-masked equals the once-masked row
    · unfold maskedRow
      rw [getD_set_ne fun hc => hic hc.symm]
  · rw [List.set_eq_of_length_le (Nat.le_of_not_lt hci)]

theorem rowMasked_step_self (m : List (List Rat)) (ci : Nat) :
    rowMasked (m.set ci (maskedRow m ci)) ci := by
  unfold rowMasked
  by_cases hci : ci < m.length
  · rw [getD_set_self hci]
    exact maskedRow_set_self m ci ci
  · rw [List.set_eq_of_length_le (Nat.le_of_not_lt hci)]
    unfold maskedRow
    rw [List.getD_eq_default _ _ (Nat.le_of_not_lt hci)]
    rfl

theorem rowMasked_step (m : List (List Rat)) (ci i : Nat)
    (h : rowMasked m i) : rowMasked (m.set ci (maskedRow m ci)) i := by
  by_cases hic : i = ci
  · subst hic
    exact rowMasked_step_self m i
  · unfold rowMasked at h ⊢
    rw [maskedRow_set_self m ci i, getD_set_ne fun hc => hic hc.symm]
    exact h

theorem runQueries_agrees (ids : List String) (top_n : Nat) :
    ∀ (qs : List String) (sim : List (List Rat))
      (out : List (String × List (String × Rat))) (mF : List (List Rat)),
      runQueries qs sim ids top_n = Except.ok (out, mF) →
      maskedAgrees mF sim
  | [], sim, out, mF => by
      intro h
      simp only [runQueries, Except.ok.injEq, Prod.mk.injEq] at h
      rw [← h.2]
      exact fun i => rfl
  | q :: rest, sim, out, mF => by
      intro h
      simp only [runQueries] at h
      cases hfind : ids.findIdx? (· == q) with
      | none =>
          simp only [get_top_eq_err hfind] at h
          exact absurd h (by simp)
      | some ci =>
          simp only [get_top_eq_ok hfind] at h
          cases hrest : runQueries rest (sim.set ci (maskedRow sim ci)) ids top_n with
          | error e =>
              simp only [hrest] at h
              exact absurd h (by simp)
          | ok p =>
              obtain ⟨out', mF'⟩ := p
              simp only [hrest, Except.ok.injEq, Prod.mk.injEq] at h
              obtain ⟨-, hm⟩ := h
              rw [← hm]
              have h1 := runQueries_agrees ids top_n rest
                (sim.set ci (maskedRow sim ci)) out' mF' hrest
              exact fun i => (h1 i).trans (maskedRow_set_self sim ci i)

theorem runQueries_preserves_rowMasked (ids : List String) (top_n : Nat) :
    ∀ (qs : List String) (sim : List (List Rat))
      (out : List (String × List (String × Rat))) (mF : List (List Rat)),
      runQueries qs sim ids top_n = Except.ok (out, mF) →
      ∀ i, rowMasked sim i → rowMasked mF i
  | [], sim, out, mF => by
      intro h i hi
      simp only [runQueries, Except.ok.injEq, Prod.mk.injEq] at h
      rw [← h.2]
      exact hi
  | q :: rest, sim, out, mF => by
      intro h i hi
      simp only [runQueries] at h
      cases hfind : ids.findIdx? (· == q) with
      | none =>
          simp only [get_top_eq_err hfind] at h
          exact absurd h (by simp)
      | some ci =>
          simp only [get_top_eq_ok hfind] at h
          cases hrest : runQueries rest (sim.set ci (maskedRow sim ci)) ids top_n with
          | error e =>
              simp only [hrest] at h
              exact absurd h (by simp)
          | ok p =>
              obtain ⟨out', mF'⟩ := p
              simp only [hrest, Except.ok.injEq, Prod.mk.injEq] at h
              obtain ⟨-, hm⟩ := h
              rw [← hm]
              exact runQueries_preserves_rowMasked ids top_n rest
                (sim.set ci (maskedRow sim ci)) out' mF' hrest i
                (rowMasked_step sim ci i hi)

theorem runQueries_queries_masked (ids : List String) (top_n : Nat) :
    ∀ (qs : List String) (sim : List (List Rat))
      (out : List (String × List (String × Rat))) (mF : List (List Rat)),
      runQueries qs sim ids top_n = Except.ok (out, mF) →
      ∀ q ∈ qs, ∀ ci, ids.findIdx? (· == q) = some ci → rowMasked mF ci
  | [], sim, out, mF => by
      intro _ q hq
      exact absurd hq (List.not_mem_nil q)
  | q0 :: rest, sim, out, mF => by
      intro h q hq ci hci
      simp only [runQueries] at h
      cases hfind : ids.findIdx? (· == q0) with
      | none =>
          simp only [get_top_eq_err hfind] at h
          exact absurd h (by simp)
      | some ci0 =>
          simp only [get_top_eq_ok hfind] at h
          cases hrest : runQueries rest (sim.set ci0 (maskedRow sim ci0)) ids top_n with
          | error e =>
              simp only [hrest] at h
              exact absurd h (by simp)
          | ok p =>
              obtain ⟨out', mF'⟩ := p
              simp only [hrest, Except.ok.injEq, Prod.mk.injEq] at h
              obtain ⟨-, hm⟩ := h
              rw [← hm]
              rcases List.mem_cons.mp hq with hq0 | hqrest
              · subst hq0
                rw [hfind] at hci
                cases hci
                exact runQueries_preserves_rowMasked ids top_n rest
                  (sim.set ci (maskedRow sim ci)) out' mF' hrest ci
                  (rowMasked_step_self sim ci)
              · exact runQueries_queries_masked ids top_n rest
                  (sim.set ci0 (maskedRow sim ci0)) out' mF' hrest q hqrest ci hci

theorem runQueries_replay (ids : List String) (top_n : Nat) :
    ∀ (qs : List String) (sim m : List (List Rat))
      (out : List (String × List (String × Rat))) (mF : List (List Rat)),
      runQueries qs sim ids top_n = Except.ok (out, mF) →
      maskedAgrees m sim →
      (∀ q ∈ qs, ∀ ci, ids.findIdx? (· == q) = some ci → rowMasked m ci) →
      runQueries qs m ids top_n = Except.ok (out, m)
  | [], sim, m, out, mF => by
      intro h _ _
      simp only [runQueries, Except.ok.injEq, Prod.mk.injEq] at h
      obtain ⟨h1, -⟩ := h
      subst h1
      rfl
  | q :: rest, sim, m, out, mF => by
      intro h hag hmask
      simp only [runQueries] at h ⊢
      cases hfind : ids.findIdx? (· == q) with
      | none =>
          simp only [get_top_eq_err hfind] at h
          exact absurd h (by simp)
      | some ci =>
          simp only [get_top_eq_ok hfind] at h
          cases hrest : runQueries rest (sim.set ci (maskedRow sim ci)) ids top_n with
          | error e =>
              simp only [hrest] at h
              exact absurd h (by simp)
          | ok p =>
              obtain ⟨out', mF'⟩ := p
              simp only [hrest, Except.ok.injEq, Prod.mk.injEq] at h
              obtain ⟨hout, -⟩ := h
              -- the replayed head query touches nothing
              have hmaskq : rowMasked m ci :=
                hmask q (List.mem_cons_self _ _) ci hfind
              have hrow : maskedRow m ci = maskedRow sim ci := hag ci
              have hset : m.set ci (maskedRow m ci) = m := by
                unfold rowMasked at hmaskq
                rw [hmaskq, set_getD_self]
              have hstep : get_top_lookalikes q m ids top_n =
                  Except.ok (mkPairs ids (maskedRow sim ci) top_n, m) := by
                rw [@get_top_eq_ok q m ids top_n ci hfind, hset, hrow]
              have hag' : maskedAgrees m (sim.set ci (maskedRow sim ci)) :=
                fun i => (hag i).trans (maskedRow_set_self sim ci i).symm
              have hmask' : ∀ q' ∈ rest, ∀ ci',
                  ids.findIdx? (· == q') = some ci' → rowMasked m ci' :=
                fun q' hq' ci' hci' => hmask q' (List.mem_cons_of_mem _ hq') ci' hci'
              have hreplay := runQueries_replay ids top_n rest
                (sim.set ci (maskedRow sim ci)) m out' mF' hrest hag' hmask'
              simp only [hstep, hreplay]
              rw [← hout]

/-- **C7**, confirmed.  The query loop threads the in-place–mutated
similarity matrix through the successive `get_top_lookalikes` calls; its
only writes are idempotent diagonal maskings, so running the whole loop
a second time — even starting from the mutated matrix the first run left
behind — produces exactly the same lookalike output and the same final
matrix.  (The clustering side consumes a fixed seed and is a pure
function of its input in this embedding, so its two-run determinism is
immediate; the loop's mutation is the only state that could have broken
determinism.) -/
theorem pipeline_two_run_determinism (queries ids : List String)
    (sim : List (List Rat)) (top_n : Nat)
    (out : List (String × List (String × Rat))) (mF : List (List Rat))
    (h : runQueries queries sim ids top_n = Except.ok (out, mF)) :
    runQueries queries mF ids top_n = Except.ok (out, mF) :=
  runQueries_replay ids top_n queries sim mF out mF h
    (runQueries_agrees ids top_n queries sim out mF h)
    (runQueries_queries_masked ids top_n queries sim out mF h)

/-- Witness for `pipeline_two_run_determinism` at a concrete input. -/
theorem pipeline_two_run_determinism_witness :
    (runQueries ["A", "B"] [[1, 5, 5, 9], [5, 1, 0, 0], [5, 0, 1, 0], [9, 0, 0, 1]]
        ["A", "B", "C", "D"] 3 =
      Except.ok ([("A", [("D", 9), ("C", 5), ("B", 5)]),
                  ("B", [("A", 5), ("D", 0), ("C", 0)])],
                 [[-1, 5, 5, 9], [5, -1, 0, 0], [5, 0, 1, 0], [9, 0, 0, 1]])) ∧
    (runQueries ["A", "B"] [[-1, 5, 5, 9], [5, -1, 0, 0], [5, 0, 1, 0], [9, 0, 0, 1]]
        ["A", "B", "C", "D"] 3 =
      Except.ok ([("A", [("D", 9), ("C", 5), ("B", 5)]),
                  ("B", [("A", 5), ("D", 0), ("C", 0)])],
                 [[-1, 5, 5, 9], [5, -1, 0, 0], [5, 0, 1, 0], [9, 0, 0, 1]])) :=
  ⟨by with_unfolding_all rfl,
    pipeline_two_run_determinism ["A", "B"] ["A", "B", "C", "D"]
      [[1, 5, 5, 9], [5, 1, 0, 0], [5, 0, 1, 0], [9, 0, 0, 1]] 3
      [("A", [("D", 9), ("C", 5), ("B", 5)]),
       ("B", [("A", 5), ("D", 0), ("C", 0)])]
      [[-1, 5, 5, 9], [5, -1, 0, 0], [5, 0, 1, 0], [9, 0, 0, 1]]
      (by with_unfolding_all rfl)⟩

/-! ## The cluster-count check (C4) -/

/-- **C4**, amended.  The only validation run before fitting is the
external library's: the fit is accepted exactly when `1 ≤ K ≤ n`.  The
spec's range `1 < K < n` is **not** enforced — `K = 1` and
`K = number of customers` are accepted without error, and no
`InvalidClusterCount` exists anywhere in the script. -/
theorem kmeans_validate_accepts_iff (K n : Nat) :
    kmeans_validate K n = Except.ok () ↔ (1 ≤ K ∧ K ≤ n) := by
  unfold kmeans_validate
  split_ifs with h1 h2
  · simp only [reduceCtorEq, false_iff]
    omega
  · simp only [reduceCtorEq, false_iff]
    omega
  · simp only [true_iff]
    omega

/-- **C4**, counterexample.  On a dataset of exactly `4` customers the
configured `n_clusters = 4` violates the spec's bound `1 < K < n`, so
the claim demands an `InvalidClusterCount` failure; the code accepts it
and fits `4` singleton-capable clusters. -/
theorem kmeans_validate_cex :
    kmeans_validate n_clusters 4 = Except.ok () ∧
    ¬ (1 < n_clusters ∧ n_clusters < 4) := by
  constructor
  · rfl
  · decide

/-! ## Transactions with an unresolved product reference (C3) -/

theorem mergedRows_fst (txns : List Transaction) (products : List Product) :
    (mergedRows txns products).map Prod.fst = txns := by
  unfold mergedRows
  rw [List.map_map]
  exact List.map_id _

theorem groupQuantity_eq (txns : List Transaction) (products : List Product)
    (c : String) :
    groupQuantity (mergedRows txns products) c =
      ((txns.filter fun u => u.customerId == c).map Transaction.quantity).sum := by
  simp only [groupQuantity, mergedRows, List.filter_map, List.map_map]
  rfl

theorem groupValue_eq (txns : List Transaction) (products : List Product)
    (c : String) :
    groupValue (mergedRows txns products) c =
      ((txns.filter fun u => u.customerId == c).map Transaction.totalValue).sum := by
  simp only [groupValue, mergedRows, List.filter_map, List.map_map]
  rfl

theorem joinCategories_err {cats : List (Option String)} (h : none ∈ cats) :
    joinCategories cats = Except.error "TypeError" := by
  unfold joinCategories
  rw [if_neg]
  intro hall
  rw [List.all_eq_true] at hall
  exact absurd (hall none h) (by simp)

theorem joinCategories_err_val {cats : List (Option String)} {e : String}
    (h : joinCategories cats = Except.error e) : e = "TypeError" := by
  unfold joinCategories at h
  split_ifs at h
  simp only [Except.error.injEq] at h
  exact h.symm

theorem profileOf_err {rows : List (Transaction × Option String)} {c : String}
    (h : none ∈ groupCats rows c) :
    profileOf rows c = Except.error "TypeError" := by
  unfold profileOf
  rw [joinCategories_err h]

theorem profileOf_err_val {rows : List (Transaction × Option String)}
    {c : String} {e : String} (h : profileOf rows c = Except.error e) :
    e = "TypeError" := by
  unfold profileOf at h
  cases hj : joinCategories (groupCats rows c) with
  | error e' =>
      rw [hj] at h
      simp only [Except.error.injEq] at h
      rw [← h]
      exact joinCategories_err_val hj
  | ok cat =>
      rw [hj] at h
      exact absurd h (by simp)

theorem profilesOf_err (rows : List (Transaction × Option String)) :
    ∀ keys : List String, (∃ c ∈ keys, none ∈ groupCats rows c) →
      profilesOf rows keys = Except.error "TypeError"
  | [] => by
      rintro ⟨c, hc, -⟩
      exact absurd hc (List.not_mem_nil c)
  | k :: ks => by
      rintro ⟨c, hc, hnone⟩
      simp only [profilesOf]
      cases hk : profileOf rows k with
      | error e =>
          rw [profileOf_err_val hk]
      | ok p =>
          rcases List.mem_cons.mp hc with rfl | hcks
          · rw [profileOf_err hnone] at hk
            exact absurd hk (by simp)
          · rw [profilesOf_err rows ks ⟨c, hcks, hnone⟩]

/-- **C3**, amended.  A transaction whose product identifier resolves to
no product row is **retained** by the left merge: its quantity and value
still contribute to its customer's group sums (the sums over the merged
table coincide with the sums over the raw transactions).  There is no
warning count; instead the aggregation of the category column aborts the
run with a `TypeError` (the comma-join meets the missing value). -/
theorem missing_product_retained (txns : List Transaction)
    (products : List Product) (t : Transaction) (ht : t ∈ txns)
    (hmiss : (products.find? fun p => p.productId == t.productId) = none) :
    (∀ c, groupQuantity (mergedRows txns products) c =
        ((txns.filter fun u => u.customerId == c).map Transaction.quantity).sum) ∧
    (∀ c, groupValue (mergedRows txns products) c =
        ((txns.filter fun u => u.customerId == c).map Transaction.totalValue).sum) ∧
    customer_profiles txns products = Except.error "TypeError" := by
  refine ⟨fun c => groupQuantity_eq txns products c,
    fun c => groupValue_eq txns products c, ?_⟩
  unfold customer_profiles
  apply profilesOf_err
  refine ⟨t.customerId, ?_, ?_⟩
  · unfold groupKeys
    rw [List.mem_insertionSort, List.mem_dedup]
    exact List.mem_map_of_mem _ ht
  · have hmem : ((t, (none : Option String)) : Transaction × Option String) ∈
        mergedRows txns products := by
      unfold mergedRows
      have hx := List.mem_map_of_mem
        (fun u : Transaction =>
          (u, (products.find? fun p => p.productId == u.productId).map Product.category))
        ht
      simpa [hmiss] using hx
    unfold groupCats
    exact List.mem_map_of_mem Prod.snd
      (List.mem_filter.mpr ⟨hmem, by simp⟩)

/-- **C3**, counterexample.  One transaction referencing the nonexistent
product `P9`: its quantity `5` *does* contribute to customer `C1`'s
aggregate, and the run aborts with a `TypeError` instead of recording a
warning. -/
theorem missing_product_cex :
    customer_profiles [⟨"C1", "P9", 5, 10⟩] [⟨"P1", "A"⟩] =
      Except.error "TypeError" ∧
    groupQuantity (mergedRows [⟨"C1", "P9", 5, 10⟩] [⟨"P1", "A"⟩]) "C1" = 5 := by
  constructor
  · with_unfolding_all rfl
  · decide

/-- Witness for `missing_product_retained` at a concrete input. -/
theorem missing_product_retained_witness :
    ((⟨"C1", "P9", 5, 10⟩ : Transaction) ∈ [(⟨"C1", "P9", 5, 10⟩ : Transaction)]) ∧
    (([(⟨"P1", "A"⟩ : Product)].find? fun p => p.productId == "P9") = none) ∧
    customer_profiles [⟨"C1", "P9", 5, 10⟩] [⟨"P1", "A"⟩] =
      Except.error "TypeError" :=
  ⟨by decide, by decide,
    (missing_product_retained [⟨"C1", "P9", 5, 10⟩] [⟨"P1", "A"⟩]
      ⟨"C1", "P9", 5, 10⟩ (by decide) (by decide)).2.2⟩

/-! ## The categorical encoding (C5) -/

theorem vocabOf_nodup (vals : List String) : (vocabOf vals).Nodup := by
  unfold vocabOf
  exact ((List.perm_insertionSort _ _).nodup_iff).mpr (List.nodup_dedup _)

theorem mem_vocabOf {vals : List String} {v : String} :
    v ∈ vocabOf vals ↔ v ∈ vals := by
  unfold vocabOf
  rw [List.mem_insertionSort, List.mem_dedup]

theorem oneHot_count (vocab : List String) (v : String) :
    (oneHot vocab v).count 1 = vocab.count v := by
  induction vocab with
  | nil => rfl
  | cons u us ih =>
      unfold oneHot at ih ⊢
      simp only [List.map_cons]
      by_cases h : u = v
      · rw [if_pos h, List.count_cons, List.count_cons, ih]
        simp [h]
      · rw [if_neg h, List.count_cons, List.count_cons, ih]
        simp [h]

/-- **C5**, amended.  The encoder one-hots the comma-joined category
*string* as a single atomic value: one indicator dimension per distinct
joined string, and a profile's vector carries `1.0` exactly at the
dimension holding its own joined string (so exactly one categorical
`1.0` per profile), not at the dimensions of the individual categories
the profile contains. -/
theorem onehot_joined_string (vals : List String) (v : String)
    (hv : v ∈ vals) :
    (oneHot (vocabOf vals) v).length = (vocabOf vals).length ∧
    (oneHot (vocabOf vals) v).count 1 = 1 ∧
    ∀ d, d < (vocabOf vals).length →
      ((oneHot (vocabOf vals) v).getD d 0 =
        if (vocabOf vals).getD d "" = v then 1 else 0) := by
  refine ⟨List.length_map _ _, ?_, ?_⟩
  · rw [oneHot_count]
    exact List.count_eq_one_of_mem (vocabOf_nodup vals) (mem_vocabOf.mpr hv)
  · intro d hd
    unfold oneHot
    rw [List.getD_eq_getElem _ _ (by simpa using hd), List.getElem_map,
      List.getD_eq_getElem _ _ hd]

/-- **C5**, counterexample.  Customer `C1` buys categories `A` and `B`,
`C2` buys `A`, `C3` buys `B`.  The distinct categorical values are two
(`A`, `B`), but the encoder allocates **three** dimensions (`A`, `A,B`,
`B` — one per distinct joined string); and `C1`'s encoded vector has
`0.0` at the dimension of value `A` even though `C1`'s profile contains
`A`, refuting both halves of the claim. -/
theorem onehot_cex :
    customer_profiles
        [⟨"C1", "P1", 1, 1⟩, ⟨"C1", "P2", 1, 1⟩, ⟨"C2", "P1", 1, 1⟩,
         ⟨"C3", "P2", 1, 1⟩]
        [⟨"P1", "A"⟩, ⟨"P2", "B"⟩] =
      Except.ok [⟨"C1", 2, 2, "A,B"⟩, ⟨"C2", 1, 1, "A"⟩, ⟨"C3", 1, 1, "B"⟩] ∧
    vocabOf ["A,B", "A", "B"] = ["A", "A,B", "B"] ∧
    specCatVocab [["A", "B"], ["A"], ["B"]] = ["A", "B"] ∧
    (vocabOf ["A,B", "A", "B"]).length ≠
      (specCatVocab [["A", "B"], ["A"], ["B"]]).length ∧
    encodeColumn ["A,B", "A", "B"] = [[0, 1, 0], [1, 0, 0], [0, 0, 1]] ∧
    ("A" ∈ ["A", "B"] ∧
      ((encodeColumn ["A,B", "A", "B"]).getD 0 []).getD 0 0 = 0) := by
  refine ⟨?_, by decide, by decide, by decide, by decide, by decide, ?_⟩
  · with_unfolding_all rfl
  · decide

/-- Witness for `onehot_joined_string` at a concrete input. -/
theorem onehot_joined_string_witness :
    ("A,B" ∈ ["A,B", "A", "B"]) ∧
    ((oneHot (vocabOf ["A,B", "A", "B"]) "A,B").length =
        (vocabOf ["A,B", "A", "B"]).length ∧
      (oneHot (vocabOf ["A,B", "A", "B"]) "A,B").count 1 = 1 ∧
      ∀ d, d < (vocabOf ["A,B", "A", "B"]).length →
        ((oneHot (vocabOf ["A,B", "A", "B"]) "A,B").getD d 0 =
          if (vocabOf ["A,B", "A", "B"]).getD d "" = "A,B" then 1 else 0)) :=
  ⟨by decide, onehot_joined_string ["A,B", "A", "B"] "A,B" (by decide)⟩

/-! ## Cluster coverage (C8) -/

theorem foldl_choice_lt {K : Nat} (f : Nat → Nat → Nat)
    (hf : ∀ acc k, f acc k = k ∨ f acc k = acc) :
    ∀ (l : List Nat) (acc : Nat), (∀ k ∈ l, k < K) → acc < K →
      l.foldl f acc < K
  | [], _ => fun _ hacc => hacc
  | k :: ks, acc => fun hl hacc => by
      simp only [List.foldl_cons]
      refine foldl_choice_lt f hf ks (f acc k)
        (fun k' hk' => hl k' (List.mem_cons_of_mem _ hk')) ?_
      rcases hf acc k with h | h
      · rw [h]
        exact hl k (List.mem_cons_self _ _)
      · rw [h]
        exact hacc

theorem nearest_lt (cents : List (List Rat)) (p : List Rat)
    (h : 0 < cents.length) : nearest cents p < cents.length := by
  unfold nearest
  refine foldl_choice_lt _ ?_ (List.range cents.length) 0
    (fun k hk => List.mem_range.mp hk) h
  intro acc k
  split
  · exact Or.inl rfl
  · exact Or.inr rfl

theorem foldl_preserve_length {α : Type _}
    (g : List α → Nat → List α) (hg : ∀ cs k, (g cs k).length = cs.length) :
    ∀ (l : List Nat) (cs : List α), (l.foldl g cs).length = cs.length
  | [], _ => rfl
  | k :: ks, cs => by
      simp only [List.foldl_cons]
      rw [foldl_preserve_length g hg ks (g cs k), hg]

theorem reseedEmpties_length (points cents : List (List Rat))
    (labels : List Nat) :
    (reseedEmpties points cents labels).length = cents.length := by
  unfold reseedEmpties
  refine foldl_preserve_length _ ?_ _ _
  intro cs k
  split
  · exact List.length_set _ _ _
  · rfl

/-- **C8**, confirmed against the spec-modelled clustering loop.
Whenever the iteration converges (returns an assignment), every customer
carries exactly one label, every label is a cluster index below `K`, and
every cluster index below `K` has at least one member: the loop only
declares convergence on an assignment pass that needed no empty-cluster
re-seeding. -/
theorem lloyd_cluster_coverage (points : List (List Rat)) :
    ∀ (fuel : Nat) (cents : List (List Rat)) (prev : Option (List Nat))
      (labels : List Nat),
      0 < cents.length →
      lloyd points fuel cents prev = some labels →
      labels.length = points.length ∧
      (∀ l ∈ labels, l < cents.length) ∧
      (∀ k, k < cents.length → k ∈ labels)
  | 0, cents, prev, labels => by
      intro _ h
      exact absurd h (by simp [lloyd])
  | fuel + 1, cents, prev, labels => by
      intro hK h
      simp only [lloyd] at h
      by_cases hemp : hasEmpty (assign points cents) cents.length = true
      · rw [if_pos hemp] at h
        have hres := lloyd_cluster_coverage points fuel
          (reseedEmpties points cents (assign points cents)) prev labels
          (by rw [reseedEmpties_length]; exact hK) h
        rw [reseedEmpties_length] at hres
        exact hres
      · rw [if_neg hemp] at h
        by_cases hprev : prev = some (assign points cents)
        · rw [if_pos hprev] at h
          have hlab : labels = assign points cents := by
            injection h with h'
            exact h'.symm
          subst hlab
          refine ⟨List.length_map _ _, ?_, ?_⟩
          · intro l hl
            unfold assign at hl
            rcases List.mem_map.mp hl with ⟨p, -, rfl⟩
            exact nearest_lt cents p hK
          · intro k hk
            have hcount : ¬ ((assign points cents).count k == 0) = true := by
              intro hc
              exact hemp (List.any_eq_true.mpr
                ⟨k, List.mem_range.mpr hk, hc⟩)
            rw [beq_iff_eq] at hcount
            exact List.count_pos_iff.mp (Nat.pos_of_ne_zero hcount)
        · rw [if_neg hprev] at h
          have hres := lloyd_cluster_coverage points fuel
            ((List.range cents.length).map fun k =>
              centroidOf points (assign points cents) k)
            (some (assign points cents)) labels
            (by rw [List.length_map, List.length_range]; exact hK) h
          rw [List.length_map, List.length_range] at hres
          exact hres

/-- Witness for `lloyd_cluster_coverage` at a concrete input: two
well-separated pairs of points converge to two nonempty clusters. -/
theorem lloyd_cluster_coverage_witness :
    (0 < ([[(0 : Rat)], [10]] : List (List Rat)).length) ∧
    ([0, 0, 1, 1].length = ([[(0 : Rat)], [2], [10], [12]] : List (List Rat)).length ∧
      (∀ l ∈ [0, 0, 1, 1], l < ([[(0 : Rat)], [10]] : List (List Rat)).length) ∧
      (∀ k, k < ([[(0 : Rat)], [10]] : List (List Rat)).length → k ∈ [0, 0, 1, 1])) :=
  ⟨by decide,
    lloyd_cluster_coverage [[(0 : Rat)], [2], [10], [12]] 10 [[0], [10]] none
      [0, 0, 1, 1] (by decide) (by with_unfolding_all rfl)⟩

end ZeoTap
